import Mathlib

/-!
Verification of the luna host/guest bridge (Go package `luna`).

The development shallowly embeds the Go sources:

* `luna.go` — the `Luna` wrapper around a Lua interpreter: the host-to-guest
  encoders (`pushBasicType`, `pushComplexType`, `pushStruct`, `pushSlice`,
  `pushMap`), the public stack-touching operations (`Call`, `CreateLibrary`,
  `FunctionExists`) modelled over an explicit Lua stack machine, and the
  guest-to-host assignment path (`set`, `tableToStruct`) used by the
  function bridge (`wrapperGen`).
* `marshal.go` — the guest value model (`LuaValue` variants) and the decoders
  (`convertBasic`, `LuaTable.Unmarshal`, `LuaNil.Unmarshal`).
* `util.go` — the function bridge generator `wrapperGen`.

Modelling conventions:

* Lua numbers (Go float64) are modelled as integers (`Int`): no claim below
  exercises non-integral numerics, and all numeric pushes in the source go
  through `PushInteger`/`PushNumber` on values the claims keep integral.
* Go's interface values are modelled by the closed inductive `HostValue`;
  the reflect kind dispatch in the source becomes constructor dispatch.
* Pushing a value on the Lua stack is represented by returning the pushed
  `LuaVal`; Lua tables are association lists split into the three key
  domains the source keeps (numeric / string / boolean keys), where
  `lua_settable` on an existing key overwrites and otherwise appends.
* Failure is `Except String`; Go panics that arise inside the bridged code
  (reflect panics, the explicit arity panic in `wrapperGen`) are modelled as
  errors as well, since the interpreter boundary converts panics raised in
  a pushed Go function into ordinary script errors.
-/

/-- Guest values: the closed union of Lua values luna reads back
(`LuaNumber`, `LuaString`, `LuaBool`, `LuaNil`, tables, plus functions
pushed from Go, which luna only ever pushes and never decodes). A table
carries the three key domains of the source `LuaTable` struct:
`indexed` (numeric keys), `mapped` (string keys), `booled` (boolean keys). -/
inductive LuaVal : Type where
  | num (n : Int)
  | str (s : String)
  | bool (b : Bool)
  | nil
  | fn (id : Nat)
  | table (ix : List (Int × LuaVal)) (mp : List (String × LuaVal)) (bl : List (Bool × LuaVal))

/-- Association-list update: overwrite the binding of an existing key,
otherwise append a fresh binding (the behaviour of `lua_settable` /
`lua_setfield` on a table, and of Go map assignment). -/
def aupdate {α β : Type} [DecidableEq α] (l : List (α × β)) (k : α) (v : β) : List (α × β) :=
  match l with
  | [] => [(k, v)]
  | (k', v') :: rest => if k' = k then (k, v) :: rest else (k', v') :: aupdate rest k v

/-- Association-list lookup (first binding of the key wins). -/
def alookup {α β : Type} [DecidableEq α] (l : List (α × β)) (k : α) : Option β :=
  match l with
  | [] => none
  | (k', v) :: rest => if k' = k then some v else alookup rest k

/-- Host values: the Go `interface{}` arguments luna encodes.  Constructors
mirror the reflect kinds the source dispatches on: basic kinds handled by
`pushBasicType` (all Go integer widths collapse to `int`, strings,
booleans, the untyped nil interface), and the compound kinds handled by
`pushComplexType` (structs with per-field exported flags — `CanInterface`
in the source —, slices/arrays, maps, functions, pointers, and `chan` as a
representative of the unsupported kinds). A pointer is either nil
(`ptrNil`) or carries its pointee (`ptrTo`). -/
inductive HostValue : Type where
  | int (n : Int)
  | str (s : String)
  | bool (b : Bool)
  | nilv
  | func (id : Nat)
  | strukt (fields : List (String × Bool × HostValue))
  | slice (elems : List HostValue)
  | hmap (pairs : List (HostValue × HostValue))
  | ptrNil
  | ptrTo (v : HostValue)
  | chan

/-- Model of `Luna.pushBasicType` (luna.go): pushes one guest value for the
basic kinds and reports `true` (here: `some pushed`); returns `false`
(`none`) for everything else. All Go integer widths are pushed through
`PushInteger`, floats through `PushNumber`; both are a single numeric
guest value. -/
def pushBasicType : HostValue → Option LuaVal
  | .int n => some (.num n)
  | .str s => some (.str s)
  | .bool b => some (.bool b)
  | .nilv => some .nil
  | _ => none

mutual

/-- Model of `Luna.pushComplexType` (luna.go). The `Ptr` case dereferences
(`reflect.ValueOf(arg).Elem().Interface()`) and re-dispatches the pointee
through the basic/complex pair; on a nil pointer `Elem()` yields the zero
`reflect.Value` and `Interface()` panics. The default case is the
`"Invalid type: %s"` error. The `nilv` case is unreachable
(`pushBasicType` handles the nil interface first). -/
def pushComplexType : HostValue → Except String LuaVal
  | .strukt fields => pushStruct fields []
  | .func id => .ok (.fn id)
  | .slice elems => pushSlice 0 elems []
  | .hmap pairs => pushMap pairs ([], [], [])
  | .ptrNil => .error "reflect: call of reflect.Value.Interface on zero Value"
  | .ptrTo v =>
      match pushBasicType v with
      | some lv => .ok lv
      | none => pushComplexType v
  | .int _ => .error "Invalid type: int"
  | .str _ => .error "Invalid type: string"
  | .bool _ => .error "Invalid type: bool"
  | .nilv => .error "reflect: TypeOf nil"
  | .chan => .error "Invalid type: chan"

/-- Model of `Luna.pushStruct` (luna.go): a fresh table (the accumulator),
then for each field in declaration order: unexported fields
(`!field.CanInterface()`) are skipped; otherwise the field value is pushed
(basic or complex) and bound under the field name via `SetField`; a failed
field push aborts the whole struct push with that error. -/
def pushStruct : List (String × Bool × HostValue) → List (String × LuaVal) →
    Except String LuaVal
  | [], acc => .ok (.table [] acc [])
  | (name, exported, v) :: rest, acc =>
      if !exported then pushStruct rest acc
      else
        match pushBasicType v with
        | some lv => pushStruct rest (aupdate acc name lv)
        | none =>
          match pushComplexType v with
          | .ok lv => pushStruct rest (aupdate acc name lv)
          | .error e => .error e

/-- Model of `Luna.pushSlice` (luna.go): a fresh table, then for element
index i the numeric key i+1 is pushed (lua has 1-based arrays) and the
element value bound to it via `SetTable`; a failed element push aborts
with that error. Arrays take the same path (`case reflect.Array,
reflect.Slice`). -/
def pushSlice : Nat → List HostValue → List (Int × LuaVal) → Except String LuaVal
  | _, [], acc => .ok (.table acc [] [])
  | i, e :: rest, acc =>
      match pushBasicType e with
      | some lv => pushSlice (i + 1) rest (aupdate acc (Int.ofNat (i + 1)) lv)
      | none =>
        match pushComplexType e with
        | .ok lv => pushSlice (i + 1) rest (aupdate acc (Int.ofNat (i + 1)) lv)
        | .error e => .error e

/-- Model of `Luna.pushMap` (luna.go): a fresh table, then for each entry
the key is pushed with `pushBasicType` (its result is ignored by the
source) and the value pushed basic-or-complex; a failed value push aborts
with that error. `SetTable` routes the binding into the key domain of the
pushed key; a non-basic key pushed nothing, in which case the binding is
dropped in this model (in the source the stale slot below is consumed). -/
def pushMap : List (HostValue × HostValue) →
    List (Int × LuaVal) × List (String × LuaVal) × List (Bool × LuaVal) →
    Except String LuaVal
  | [], (ix, mp, bl) => .ok (.table ix mp bl)
  | (k, v) :: rest, (ix, mp, bl) =>
      match pushBasicType v with
      | some lv => pushMapInsert k lv rest (ix, mp, bl)
      | none =>
        match pushComplexType v with
        | .ok lv => pushMapInsert k lv rest (ix, mp, bl)
        | .error e => .error e

/-- Key-domain routing for `pushMap`: `SetTable` with a numeric, string or
boolean key inserts into the respective mapping of the guest table. -/
def pushMapInsert : HostValue → LuaVal → List (HostValue × HostValue) →
    List (Int × LuaVal) × List (String × LuaVal) × List (Bool × LuaVal) →
    Except String LuaVal
  | .int n, lv, rest, (ix, mp, bl) => pushMap rest (aupdate ix n lv, mp, bl)
  | .str s, lv, rest, (ix, mp, bl) => pushMap rest (ix, aupdate mp s lv, bl)
  | .bool b, lv, rest, (ix, mp, bl) => pushMap rest (ix, mp, aupdate bl b lv)
  | _, _, rest, (ix, mp, bl) => pushMap rest (ix, mp, bl)

end

/-- The push pattern used at every encode site in the source: try
`pushBasicType`, fall back to `pushComplexType`. The returned value is the
single guest value the pair of calls leaves on the Lua stack. -/
def pushValue (v : HostValue) : Except String LuaVal :=
  match pushBasicType v with
  | some lv => .ok lv
  | none => pushComplexType v

/-- Total extractor for a successful push, used to state what a compound
encode contains; meaningful only where the push is known to succeed. -/
def encOf (v : HostValue) : LuaVal :=
  match pushValue v with
  | .ok lv => lv
  | .error _ => .nil

/-- The interpreter state a `Luna` instance owns: the Lua value stack (head
is the top slot) and the global table (string-keyed). The mutex in the
source only serializes access and carries no state of its own. -/
structure LunaState : Type where
  stack : List LuaVal
  globals : List (String × LuaVal)

/-- Model of `lua_gettop`: the current stack height. -/
def getTop (st : LunaState) : Nat := st.stack.length

/-- Pushing one value on the Lua stack. -/
def push (st : LunaState) (v : LuaVal) : LunaState := { st with stack := v :: st.stack }

/-- Model of `lua_settop n`: truncate the stack down to height n, or pad it
with nil up to height n. -/
def setTop (n : Nat) (st : LunaState) : LunaState :=
  { st with
    stack :=
      if st.stack.length ≤ n then List.replicate (n - st.stack.length) .nil ++ st.stack
      else st.stack.drop (st.stack.length - n) }

/-- Model of `lua_getglobal`: push the named global (nil when absent). -/
def getGlobal (st : LunaState) (name : String) : LunaState :=
  push st ((alookup st.globals name).getD .nil)

/-- Model of `lua_setglobal`: pop the top slot and bind it as the named
global. The empty-stack case never arises at the call sites modelled. -/
def setGlobal (st : LunaState) (name : String) : LunaState :=
  match st.stack with
  | v :: rest => { stack := rest, globals := aupdate st.globals name v }
  | [] => st

/-- Model of `lua_newtable`: push a fresh empty table. -/
def newTable (st : LunaState) : LunaState := push st (.table [] [] [])

/-- Model of `SetField(-2, k)` as the source always uses it: pop the top
value and bind it under the string key k in the table one slot below. The
fall-through case never arises at the call sites modelled. -/
def setFieldNeg2 (key : String) (st : LunaState) : LunaState :=
  match st.stack with
  | v :: .table ix mp bl :: rest => { st with stack := .table ix (aupdate mp key v) bl :: rest }
  | _ => st

/-- The argument loop of `Luna.Call` (luna.go): each argument is pushed
basic-or-complex; the first failing push aborts the loop with its error. -/
def pushArgs : List HostValue → LunaState → LunaState × Option String
  | [], st => (st, none)
  | a :: rest, st =>
      match pushValue a with
      | .ok lv => pushArgs rest (push st lv)
      | .error e => (st, some e)

/-- The member loop of `Luna.CreateLibrary` (luna.go): each member value is
pushed basic-or-complex and bound in the library table via
`SetField(-2, key)`; the first failing push aborts the loop with its error
(before any `SetField` for that member). -/
def pushMembers : List (String × HostValue) → LunaState → LunaState × Option String
  | [], st => (st, none)
  | (key, val) :: rest, st =>
      match pushValue val with
      | .ok lv => pushMembers rest (setFieldNeg2 key (push st lv))
      | .error e => (st, some e)

/-- Model of `Luna.Call` (luna.go). Saves the entry height, pushes the named
global and the encoded arguments (a failed encode returns that error, the
deferred `SetTop(top)` restoring the height), then hands the stack to the
interpreter (`l.L.Call`, the `luaCall` oracle: it may rewrite the stack and
the globals and may fail with a script error). On success the readback
loop pops every slot down to an empty stack (the source loop runs while
`GetTop() > 0`, so it also drains slots below the entry frame) with the
bottom slot first in the result, and the final `SetTop(top)` restores the
entry height. -/
def call (luaCall : LunaState → Nat → LunaState × Option String)
    (st : LunaState) (name : String) (args : List HostValue) :
    LunaState × Except String (List LuaVal) :=
  let top := getTop st
  let st1 := getGlobal st name
  match pushArgs args st1 with
  | (st2, some e) => (setTop top st2, .error e)
  | (st2, none) =>
      match luaCall st2 args.length with
      | (st3, some e) => (setTop top st3, .error e)
      | (st3, none) =>
          let ret := st3.stack.reverse
          (setTop top { st3 with stack := [] }, .ok ret)

/-- Model of `Luna.CreateLibrary` (luna.go). Saves the entry height, pushes
a fresh table, runs the member loop; if any member failed the deferred
`SetTop(top)` restores the entry stack and the error is returned —
`SetGlobal` is never reached, so the named global is untouched. Only after
every member succeeded is the table popped and published as the named
global. -/
def createLibrary (st : LunaState) (name : String) (members : List (String × HostValue)) :
    LunaState × Option String :=
  let top := getTop st
  let st1 := newTable st
  match pushMembers members st1 with
  | (st2, some e) => (setTop top st2, some e)
  | (st2, none) => (setGlobal st2 name, none)

/-- Model of `Luna.FunctionExists` (luna.go): push the named global, test
`IsFunction` on the top slot, restore the entry height with `SetTop`. -/
def functionExists (st : LunaState) (name : String) : LunaState × Bool :=
  let top := getTop st
  let st1 := getGlobal st name
  let found :=
    match st1.stack with
    | .fn _ :: _ => true
    | _ => false
  (setTop top st1, found)

/-- Go reflect kinds, as far as the decode paths dispatch on them. -/
inductive GoKind : Type where
  | intK | uintK | floatK | boolK | stringK
  | sliceK | arrayK | mapK | structK | ptrK | interfaceK
deriving DecidableEq

/-- Host destination types for the decode direction: the static Go type a
guest value is unmarshalled into. Array types carry their fixed length. -/
inductive HostType : Type where
  | intT | uintT | floatT | boolT | strT
  | sliceT (elem : HostType)
  | arrayT (len : Nat) (elem : HostType)
  | mapT (key val : HostType)
  | structT (fields : List (String × HostType))
  | ptrT (elem : HostType)
  | ifaceT

/-- Reflect kind of a destination type. -/
def kindOf : HostType → GoKind
  | .intT => .intK
  | .uintT => .uintK
  | .floatT => .floatK
  | .boolT => .boolK
  | .strT => .stringK
  | .sliceT _ => .sliceK
  | .arrayT _ _ => .arrayK
  | .mapT _ _ => .mapK
  | .structT _ => .structK
  | .ptrT _ => .ptrK
  | .ifaceT => .interfaceK

mutual

/-- Go zero value of a destination type (`reflect.Zero`). The zero slice and
zero map are modelled as the empty ones (nil-ness of a fresh slice or map
never matters on the paths below: a nil map is immediately re-created, a
nil slice has length zero). -/
def zeroOf : HostType → HostValue
  | .intT => .int 0
  | .uintT => .int 0
  | .floatT => .int 0
  | .boolT => .bool false
  | .strT => .str ""
  | .sliceT _ => .slice []
  | .arrayT n elem => .slice (List.replicate n (zeroOf elem))
  | .mapT _ _ => .hmap []
  | .structT fields => .strukt (zeroFields fields)
  | .ptrT _ => .ptrNil
  | .ifaceT => .nilv

/-- Zero values of a struct's fields, in declaration order. -/
def zeroFields : List (String × HostType) → List (String × Bool × HostValue)
  | [] => []
  | (n, t) :: rest => (n, true, zeroOf t) :: zeroFields rest

end

/-- The counting loop of `LuaTable.Slice` (marshal.go): probe numeric keys
1, 2, ... while present, stopping at the first gap and after at most
`len(lv.indexed)` probes. -/
def sliceLoop (ix : List (Int × LuaVal)) : Nat → Int → List LuaVal
  | 0, _ => []
  | fuel + 1, i =>
      match alookup ix i with
      | some v => v :: sliceLoop ix fuel (i + 1)
      | none => []

/-- Model of `LuaTable.Slice` (marshal.go): the contiguous 1-based numeric
run of the table. -/
def luaSlice (ix : List (Int × LuaVal)) : List LuaVal := sliceLoop ix ix.length 1

/-- Model of `convertBasic` (marshal.go) on a destination slot of the given
type: succeeds exactly when Go's `ConvertibleTo` accepts the source's
dynamic type for the destination type — float64 converts to the numeric
kinds, string to string, bool to bool; everything else fails with the
`"Cannot assign '%s' to '%s'"` error. The `TextUnmarshaler` hook is
skipped: none of the modelled destination types declares one. A nil or
function guest value never reaches this function on the modelled paths
(tables hold no nil, and functions read back as `luaTypeError`, whose
`Unmarshal` fails). -/
def convertBasic (src : LuaVal) (destType : HostType) : Except String HostValue :=
  match src, destType with
  | .num n, .intT => .ok (.int n)
  | .num n, .uintT => .ok (.int n)
  | .num n, .floatT => .ok (.int n)
  | .str s, .strT => .ok (.str s)
  | .bool b, .boolT => .ok (.bool b)
  | _, _ => .error "Cannot assign"

/-- Boolean equality on the (always basic) keys of a decoded host map:
Go map keys compare by value. -/
def hostKeyEq : HostValue → HostValue → Bool
  | .int a, .int b => a == b
  | .str a, .str b => a == b
  | .bool a, .bool b => a == b
  | _, _ => false

/-- Host-map insert (`SetMapIndex`): overwrite an existing key, else append. -/
def hupdate (l : List (HostValue × HostValue)) (k : HostValue) (v : HostValue) :
    List (HostValue × HostValue) :=
  match l with
  | [] => [(k, v)]
  | (k', v') :: rest => if hostKeyEq k' k then (k, v) :: rest else (k', v') :: hupdate rest k v

/-- Lookup of a struct field's current value by exact name. -/
def slookup3 (fs : List (String × Bool × HostValue)) (name : String) : Option HostValue :=
  match fs with
  | [] => none
  | (n, _, hv) :: rest => if n = name then some hv else slookup3 rest name

/-- The destination struct's fields paired with their current values
(the `destVal.FieldByName` slots `LuaTable.Unmarshal` writes into). -/
def structCur (fields : List (String × HostType)) (cur : HostValue) :
    List (String × HostType × HostValue) :=
  fields.map fun p =>
    (p.1, p.2,
      match cur with
      | .strukt fs => (slookup3 fs p.1).getD (zeroOf p.2)
      | _ => zeroOf p.2)

/-- Repack updated field slots as a struct host value. -/
def structResult (flds : List (String × HostType × HostValue)) :
    List (String × Bool × HostValue) :=
  flds.map fun p => (p.1, true, p.2.2)

/-- Model of `strings.Title` on the single-word keys that occur as table
keys: capitalize the first character. -/
def titleCase (s : String) : String :=
  match s.data with
  | [] => s
  | c :: cs => String.mk (c.toUpper :: cs)

/-- The element loop of the slice/array cases, parametrized by the
conversion applied to each element (`convertTableVal` at the current
nesting budget): position i converts into a fresh zero slot and
overwrites the base slot on success; on failure the base slot is kept
(the collected error dies at `return nil`). -/
def unmarshalItems (conv : LuaVal → HostType → HostValue → Except String HostValue)
    (elem : HostType) : List LuaVal → List HostValue → List HostValue
  | [], base => base
  | _ :: _, [] => []
  | v :: vs, b :: bs =>
      (match conv v elem (zeroOf elem) with
       | .ok hv => hv
       | .error _ => b) :: unmarshalItems conv elem vs bs

/-- One struct-field update: locate the field by (title-cased) name; absent
fields are skipped; the conversion error is discarded (the source's
`err != nil` typo), so a failed conversion leaves the field value alone. -/
def updateField (conv : LuaVal → HostType → HostValue → Except String HostValue) :
    List (String × HostType × HostValue) → String → LuaVal →
    List (String × HostType × HostValue)
  | [], _, _ => []
  | (n, t, hv) :: rest, name, v =>
      if n = name then
        (n, t,
          match conv v t hv with
          | .ok hv2 => hv2
          | .error _ => hv) :: rest
      else (n, t, hv) :: updateField conv rest name v

/-- The struct-case loop over the string-keyed entries. -/
def unmarshalFields (conv : LuaVal → HostType → HostValue → Except String HostValue)
    (flds : List (String × HostType × HostValue)) :
    List (String × LuaVal) → List (String × HostType × HostValue)
  | [] => flds
  | (k, v) :: rest => unmarshalFields conv (updateField conv flds (titleCase k) v) rest

/-- The numeric-key map loop (`setMap` per entry; its error is dropped). -/
def unmarshalMapNum (conv : LuaVal → HostType → HostValue → Except String HostValue)
    (vt : HostType) : List (Int × LuaVal) → List (HostValue × HostValue) →
    List (HostValue × HostValue)
  | [], acc => acc
  | (k, v) :: rest, acc =>
      match conv v vt (zeroOf vt) with
      | .ok hv => unmarshalMapNum conv vt rest (hupdate acc (.int k) hv)
      | .error _ => unmarshalMapNum conv vt rest acc

/-- The string-key map loop. -/
def unmarshalMapStr (conv : LuaVal → HostType → HostValue → Except String HostValue)
    (vt : HostType) : List (String × LuaVal) → List (HostValue × HostValue) →
    List (HostValue × HostValue)
  | [], acc => acc
  | (k, v) :: rest, acc =>
      match conv v vt (zeroOf vt) with
      | .ok hv => unmarshalMapStr conv vt rest (hupdate acc (.str k) hv)
      | .error _ => unmarshalMapStr conv vt rest acc

/-- The boolean-key map loop. -/
def unmarshalMapBool (conv : LuaVal → HostType → HostValue → Except String HostValue)
    (vt : HostType) : List (Bool × LuaVal) → List (HostValue × HostValue) →
    List (HostValue × HostValue)
  | [], acc => acc
  | (k, v) :: rest, acc =>
      match conv v vt (zeroOf vt) with
      | .ok hv => unmarshalMapBool conv vt rest (hupdate acc (.bool k) hv)
      | .error _ => unmarshalMapBool conv vt rest acc

/-- Model of `LuaTable.Unmarshal` (marshal.go), writing into a destination
slot of type `destType` whose current value is `cur`, parametrized by the
conversion applied to nested values.

* Slice: the contiguous run is fitted by reusing the destination when it is
  long enough (`SetLen`, keeping the prefix) and allocating fresh zeroes
  otherwise (`MakeSlice`); capacity is modelled as equal to length. Each
  element is converted into a fresh zero slot; a failed element leaves the
  base entry in place, and the loop's collected error is discarded because
  the function ends in `return nil`.
* Array: same loop over the existing backing slots, but a run longer than
  the destination is the "Array not big enough to hold values" error.
* Struct: for each string-keyed entry the field named
  `strings.Title(key)` is located; missing fields are skipped; a field
  conversion error is discarded (the source tests the stale `err` instead
  of `er`, and the function returns nil regardless).
* Map: the relevant key domain must match the destination's key kind
  (numeric / string / boolean; struct keys are a hard error, other kinds
  are "Invalid key type"); entries convert into fresh zero slots and
  failed entries are skipped (`setMap`'s error is dropped at the call
  site). Numeric key assignability is collapsed by the integral number
  model.
* Any other destination kind falls through the switch to `return nil`:
  success, with the destination untouched. -/
def luaTableUnmarshalF (conv : LuaVal → HostType → HostValue → Except String HostValue)
    (ix : List (Int × LuaVal)) (mp : List (String × LuaVal)) (bl : List (Bool × LuaVal))
    (destType : HostType) (cur : HostValue) : Except String HostValue :=
  match destType with
  | .sliceT elem =>
      let items := luaSlice ix
      let base : List HostValue :=
        match cur with
        | .slice es =>
            if items.length ≤ es.length then es.take items.length
            else List.replicate items.length (zeroOf elem)
        | _ => List.replicate items.length (zeroOf elem)
      .ok (.slice (unmarshalItems conv elem items base))
  | .arrayT n elem =>
      let items := luaSlice ix
      let base : List HostValue :=
        match cur with
        | .slice es => es
        | _ => List.replicate n (zeroOf elem)
      if base.length < items.length then .error "Array not big enough to hold values"
      else .ok (.slice (unmarshalItems conv elem items base))
  | .structT fields =>
      .ok (.strukt (structResult (unmarshalFields conv (structCur fields cur) mp)))
  | .mapT kt vt =>
      let base : List (HostValue × HostValue) :=
        match cur with
        | .hmap ps => ps
        | _ => []
      match kindOf kt with
      | .intK | .uintK | .floatK => .ok (.hmap (unmarshalMapNum conv vt ix base))
      | .stringK => .ok (.hmap (unmarshalMapStr conv vt mp base))
      | .boolK => .ok (.hmap (unmarshalMapBool conv vt bl base))
      | .structK => .error "Struct key types not currently supported"
      | _ => .error "Invalid key type"
  | _ => .ok cur

/-- The dispatch of `convertTableVal` (marshal.go): a table source goes
through `LuaTable.Unmarshal` with one nesting level consumed, anything
else through `convertBasic`. The fuel argument only bounds the
nested-table recursion for termination; entry points supply a fuel at
least the nesting depth of the source value, so the zero-fuel branch is
unreachable. -/
def convertTableVal : Nat → LuaVal → HostType → HostValue → Except String HostValue
  | fuel + 1, .table ix mp bl, destType, cur =>
      luaTableUnmarshalF (convertTableVal fuel) ix mp bl destType cur
  | 0, .table _ _ _, _, _ => .error "unreachable: table nesting exceeds fuel"
  | _, lv, destType, _ => convertBasic lv destType

/-- Model of `LuaTable.Unmarshal` at a given nesting budget: nested values
convert through `convertTableVal` with that budget. -/
def luaTableUnmarshal (fuel : Nat) (ix : List (Int × LuaVal)) (mp : List (String × LuaVal))
    (bl : List (Bool × LuaVal)) (destType : HostType) (cur : HostValue) :
    Except String HostValue :=
  luaTableUnmarshalF (convertTableVal fuel) ix mp bl destType cur

mutual

/-- Computable size of a guest value, a strict upper bound on table nesting
depth; used only to pick a sufficient fuel at the decode entry points. -/
def lsize : LuaVal → Nat
  | .table ix mp bl => 1 + lsizeIx ix + lsizeMp mp + lsizeBl bl
  | _ => 1

/-- Size of the numeric-key bindings. -/
def lsizeIx : List (Int × LuaVal) → Nat
  | [] => 0
  | (_, v) :: rest => 1 + lsize v + lsizeIx rest

/-- Size of the string-key bindings. -/
def lsizeMp : List (String × LuaVal) → Nat
  | [] => 0
  | (_, v) :: rest => 1 + lsize v + lsizeMp rest

/-- Size of the boolean-key bindings. -/
def lsizeBl : List (Bool × LuaVal) → Nat
  | [] => 0
  | (_, v) :: rest => 1 + lsize v + lsizeBl rest

end

/-- Entry point for `LuaTable.Unmarshal` on a pointer to a destination slot
of type `destType` holding `cur`; the fuel supplied strictly bounds the
table's nesting depth, so no fuel branch fires. -/
def tableUnmarshal (ix : List (Int × LuaVal)) (mp : List (String × LuaVal))
    (bl : List (Bool × LuaVal)) (destType : HostType) (cur : HostValue) :
    Except String HostValue :=
  luaTableUnmarshal (lsizeIx ix + lsizeMp mp + lsizeBl bl) ix mp bl destType cur

/-- Model of `LuaNil.Unmarshal` (marshal.go), invoked as `Unmarshal(&x)`
where x is the destination slot, of type `pointee`, currently holding
`cur`. The source takes `destVal := reflect.ValueOf(d)` — the pointer
itself — rejects a non-pointer d, and then switches on the very same
`destVal.Type().Kind()`: that kind is always `Ptr` here, so the first case
of the switch fires unconditionally and `destVal.Elem()` — the pointee —
is reset to its zero value. The `Map`, `Slice` and `Interface` arms and
the `"Unmarshal unsupported for %T"` default are unreachable. -/
def luaNilUnmarshal (pointee : HostType) (cur : HostValue) : Except String HostValue :=
  let dKind : GoKind := .ptrK
  if dKind ≠ .ptrK then .error "Must pass a pointer type to Unmarshal"
  else
    match dKind, cur with
    | .ptrK, _ | .mapK, _ | .sliceK, _ | .interfaceK, _ => .ok (zeroOf pointee)
    | _, _ => .error "Unmarshal unsupported for destination"

/-- Fields of a struct slot freshly zeroed (the `wrapperGen` parameter slots
are rebuilt with `reflect.New` on every call). -/
def zeroSlots (fields : List (String × HostType)) : List (String × HostType × HostValue) :=
  fields.map fun p => (p.1, p.2, zeroOf p.2)

/-- One `FieldByName`-and-`set` step of `tableToStruct`: a missing field is
logged and skipped (`field.IsValid()` false); a present field is set,
propagating failure. -/
def tts_setField (setf : HostType → LuaVal → Except String HostValue)
    (flds : List (String × HostType × HostValue)) (name : String) (v : LuaVal) :
    Except String (List (String × HostType × HostValue)) :=
  match flds with
  | [] => .ok []
  | (n, t, hv) :: rest =>
      if n = name then
        match setf t v with
        | .ok hv2 => .ok ((n, t, hv2) :: rest)
        | .error e => .error e
      else
        match tts_setField setf rest name v with
        | .ok rest2 => .ok ((n, t, hv) :: rest2)
        | .error e => .error e

/-- The entry loop of `tableToStruct` over the string-keyed bindings. -/
def tts_entries (setf : HostType → LuaVal → Except String HostValue)
    (flds : List (String × HostType × HostValue)) :
    List (String × LuaVal) → Except String HostValue
  | [] => .ok (.strukt (structResult flds))
  | (name, v) :: rest =>
      match tts_setField setf flds name v with
      | .ok flds2 => tts_entries setf flds2 rest
      | .error e => .error e

/-- Model of `Luna.tableToStruct` (luna.go), parametrized by the `set` used
on each field: iterate the table with `lua_next`; `IsString` accepts
string keys (and numbers, which stringify to digit strings that never
name a Go field and are skipped after the "Field doesn't exist" log),
while a boolean key is the "Keys must be strings" error; each string key
that names a field has the field set, and a `set` failure aborts with
that error. -/
def tableToStruct (setf : HostType → LuaVal → Except String HostValue)
    (fields : List (String × HostType)) (_ix : List (Int × LuaVal))
    (mp : List (String × LuaVal)) (bl : List (Bool × LuaVal)) : Except String HostValue :=
  if bl.isEmpty = false then .error "Keys must be strings"
  else tts_entries setf (zeroSlots fields) mp

/-- Model of `Luna.set` (luna.go), writing the guest value at a stack slot
into a freshly zeroed host slot of type t (the slots `wrapperGen` binds
are zeroed before every call). The fuel argument only bounds the
nested-table recursion for termination and is supplied generously at the
entry point.

* A number sets int, uint and float kinds (`SetInt`/`SetUint`/`SetFloat`;
  integral model) and is the "Wrong type" error for every other kind.
* A boolean runs `SetBool` unconditionally, which panics in reflect unless
  the slot kind is Bool; a string likewise with `SetString`.
* A table goes through `tableToStruct`, whose `FieldByName` panics unless
  the slot is a struct.
* Nil and functions fall to the default "Unexpected type: %d" error. -/
def Luna.set : Nat → HostType → LuaVal → Except String HostValue
  | _, t, .num n =>
      (match kindOf t with
       | .intK | .uintK => .ok (.int n)
       | .floatK => .ok (.int n)
       | _ => .error "Wrong type")
  | _, t, .bool b =>
      (match t with
       | .boolT => .ok (.bool b)
       | _ => .error "reflect: call of reflect.Value.SetBool on wrong kind")
  | _, t, .str s =>
      (match t with
       | .strT => .ok (.str s)
       | _ => .error "reflect: call of reflect.Value.SetString on wrong kind")
  | fuel + 1, .structT fields, .table ix mp bl =>
      tableToStruct (Luna.set fuel) fields ix mp bl
  | 0, .structT _, .table _ _ _ => .error "unreachable: table nesting exceeds fuel"
  | _, _, .table _ _ _ => .error "reflect: FieldByName of non-struct type"
  | _, _, .nil => .error "Unexpected type: 0"
  | _, _, .fn _ => .error "Unexpected type: 6"

/-- Entry point for `Luna.set` on one bridged argument: the fuel strictly
bounds the value's nesting depth, so no fuel branch fires. -/
def setValue (t : HostType) (lv : LuaVal) : Except String HostValue :=
  Luna.set (lsize lv) t lv

/-- The static shape of a bridged Go function (`impl.Type()` in
`wrapperGen`): its declared parameter types (`NumIn` entries; for a
variadic function the last one is the variadic slice type) and the
variadic flag. -/
structure GoFuncType : Type where
  params : List HostType
  variadic : Bool

/-- The fixed-parameter binding loop of `wrapperGen` (util.go): for
i = 1.. the i-th presented argument is decoded into the i-th freshly
zeroed parameter slot; once the declared parameters are exhausted the
remaining arguments are ignored (`break`); a decode failure panics, which
the interpreter boundary reports as a script error. The underrun arm is
unreachable because `wrapperGen` checks the arity first. -/
def bindParams : List HostType → List LuaVal → Except String (List HostValue)
  | [], _ => .ok []
  | _ :: _, [] => .error "unreachable: arity checked before binding"
  | t :: ts, a :: rest =>
      match setValue t a with
      | .ok hv =>
          match bindParams ts rest with
          | .ok hvs => .ok (hv :: hvs)
          | .error e => .error e
      | .error e => .error e

/-- The variadic append loop of `wrapperGen`: every remaining argument is
decoded into a fresh slot of the variadic element type and appended; in
this branch the source ignores `set`'s result, so a failed decode appends
the still-zero slot. -/
def bindVariadic (elemT : HostType) (largs : List LuaVal) : List HostValue :=
  largs.map fun a =>
    match setValue elemT a with
    | .ok hv => hv
    | .error _ => zeroOf elemT

/-- Model of the closure `wrapperGen` (util.go; luna.go line 638 carries an
older variant with the same arity behaviour) builds around a host
function: read the presented argument count; fewer than the declared
parameter count is the `"Args: %d, Params: %d"` panic, which the
interpreter boundary converts into a script error reported to the
caller; then bind the fixed parameters (extra arguments are ignored) and,
for a variadic function, append the remaining arguments to the trailing
slice. The result is the exact argument list `impl.Call` /
`impl.CallSlice` receives. -/
def wrapperGen (typ : GoFuncType) (largs : List LuaVal) : Except String (List HostValue) :=
  let nparams := typ.params.length
  if largs.length < nparams then
    .error (s!"Args: {largs.length}, Params: {nparams}")
  else
    if typ.variadic then
      match typ.params.getLast? with
      | some (.sliceT elemT) =>
          match bindParams typ.params.dropLast (largs.take (nparams - 1)) with
          | .ok fixed => .ok (fixed ++ [.slice (bindVariadic elemT (largs.drop (nparams - 1)))])
          | .error e => .error e
      | _ => .error "unreachable: variadic function without trailing slice parameter"
    else bindParams typ.params largs

/-- Modelled from the spec: the per-instance serializer state of section 4.4
(Idle / Running / TimedOut with per-call deadlines and abandonment). The
timeout/abandonment machinery is not part of the sources under src/ —
there `Luna.Call` only holds a mutex — so this component is built from the
spec's words: `timedOut` is the TimedOut state, `pending` the abandoned
operation still running to completion (its eventual effect on the
interpreter globals), and `globals` the interpreter's global state.
Running is transient: within one submission the operation either completes
(back to Idle) or outlives its deadline (TimedOut). -/
structure SerInstance (γ α : Type) : Type where
  timedOut : Bool
  pending : Option (γ → γ)
  globals : γ

/-- Modelled from the spec: one serialized operation — how long it runs, its
effect on the interpreter globals, and its result value. -/
structure SerOp (γ α : Type) : Type where
  duration : Nat
  effect : γ → γ
  result : α

/-- Modelled from the spec: a submission's outcome — the caller's value or
the Timeout error. -/
inductive SerReply (α : Type) : Type where
  | ok (val : α)
  | timeout

/-- Modelled from the spec (section 4.4): submitting an operation with an
optional deadline. In TimedOut state every request fails immediately with
the same Timeout error without attempting to acquire access. Otherwise
the operation acquires exclusive access; if a configured deadline elapses
first, the caller receives Timeout, the instance enters TimedOut and the
operation keeps running in the background (recorded in `pending`);
otherwise it completes, applies its effect and delivers its result. -/
def serSubmit {γ α : Type} (m : SerInstance γ α) (op : SerOp γ α) (deadline : Option Nat) :
    SerInstance γ α × SerReply α :=
  if m.timedOut then (m, .timeout)
  else
    match deadline with
    | some d =>
        if d < op.duration then
          ({ m with timedOut := true, pending := some op.effect }, .timeout)
        else ({ m with globals := op.effect m.globals }, .ok op.result)
    | none => ({ m with globals := op.effect m.globals }, .ok op.result)

/-- Modelled from the spec (section 4.4): the abandoned operation eventually
finishes — its effect lands on the globals, its result is discarded (no
live recipient), and the instance transitions back to Idle. -/
def serDrain {γ α : Type} (m : SerInstance γ α) : SerInstance γ α :=
  match m.pending with
  | some eff => { timedOut := false, pending := none, globals := eff m.globals }
  | none => m

/-- The table the spec ascribes to an encoded slice: the contiguous 1-based
run starting above i, key i+j+1 bound to the encoding of element j. -/
def sliceSpec : Nat → List HostValue → List (Int × LuaVal)
  | _, [] => []
  | i, e :: rest => (Int.ofNat (i + 1), encOf e) :: sliceSpec (i + 1) rest

/-- The string-key bindings the spec ascribes to an encoded struct: the
exported fields, in declaration order, bound to their encodings. -/
def structSpec : List (String × Bool × HostValue) → List (String × LuaVal)
  | [] => []
  | (n, ex, v) :: rest => if ex then (n, encOf v) :: structSpec rest else structSpec rest

/-- Names of the exported fields, in declaration order. -/
def exportedNames (fs : List (String × Bool × HostValue)) : List String :=
  (fs.filter fun f => f.2.1).map fun f => f.1

/-- The first encode failure among the exported fields, if any. -/
def structFirstErr : List (String × Bool × HostValue) → Option String
  | [] => none
  | (_, ex, v) :: rest =>
      if ex then
        match pushValue v with
        | .ok _ => structFirstErr rest
        | .error e => some e
      else structFirstErr rest

/-- Fresh-key insertion appends. -/
theorem aupdate_append {α β : Type} [DecidableEq α] (l : List (α × β)) (k : α) (v : β)
    (h : k ∉ l.map Prod.fst) : aupdate l k v = l ++ [(k, v)] := by
  induction l with
  | nil => rfl
  | cons p rest ih =>
      obtain ⟨k', v'⟩ := p
      simp only [List.map_cons, List.mem_cons] at h
      push_neg at h
      rw [aupdate, if_neg (fun hk => h.1 hk.symm), ih h.2]
      rfl

/-- Lookup misses every list whose keys avoid the key. -/
theorem alookup_not_mem {α β : Type} [DecidableEq α] (l : List (α × β)) (k : α)
    (h : k ∉ l.map Prod.fst) : alookup l k = none := by
  induction l with
  | nil => rfl
  | cons p rest ih =>
      obtain ⟨k', v'⟩ := p
      simp only [List.map_cons, List.mem_cons] at h
      push_neg at h
      rw [alookup, if_neg (fun hk => h.1 hk.symm)]
      exact ih h.2

/-- A successful push is what `encOf` reports. -/
theorem encOf_eq {v : HostValue} {lv : LuaVal} (h : pushValue v = .ok lv) : encOf v = lv := by
  rw [encOf, h]

/-- One `pushSlice` step whose element encodes: bind key i+1 and continue. -/
theorem pushSlice_cons_ok (i : Nat) (e : HostValue) (rest : List HostValue)
    (acc : List (Int × LuaVal)) {lv : LuaVal} (h : pushValue e = .ok lv) :
    pushSlice i (e :: rest) acc = pushSlice (i + 1) rest (aupdate acc (Int.ofNat (i + 1)) lv) := by
  rcases hb : pushBasicType e with _ | blv
  · rw [pushValue, hb] at h
    have hc : pushComplexType e = .ok lv := h
    simp [pushSlice, hb, hc]
  · rw [pushValue, hb] at h
    have hc : blv = lv := by
      simpa using h
    subst hc
    simp [pushSlice, hb]

/-- The element loop of `pushSlice` materializes the spec's contiguous run
after the accumulator, provided every element encodes and the accumulator
only holds keys at or below position i. -/
theorem pushSlice_eq (es : List HostValue) :
    ∀ (i : Nat) (acc : List (Int × LuaVal)),
      (∀ e ∈ es, ∃ lv, pushValue e = .ok lv) →
      (∀ p ∈ acc, p.1 < Int.ofNat (i + 1)) →
      pushSlice i es acc = .ok (.table (acc ++ sliceSpec i es) [] []) := by
  induction es with
  | nil => intro i acc _ _; simp [pushSlice, sliceSpec]
  | cons e rest ih =>
      intro i acc h hacc
      obtain ⟨lv, hlv⟩ := h e (by simp)
      have hfresh : (Int.ofNat (i + 1)) ∉ acc.map Prod.fst := by
        intro hmem
        obtain ⟨p, hp, hpe⟩ := List.mem_map.mp hmem
        exact absurd (hpe ▸ hacc p hp) (lt_irrefl _)
      have hacc' : ∀ p ∈ acc ++ [(Int.ofNat (i + 1), lv)], p.1 < Int.ofNat (i + 1 + 1) := by
        intro p hp
        rcases List.mem_append.mp hp with hp | hp
        · have h0 := hacc p hp
          have h1 : Int.ofNat (i + 1) ≤ Int.ofNat (i + 1 + 1) := Int.ofNat_le.mpr (by omega)
          exact lt_of_lt_of_le h0 h1
        · simp only [List.mem_singleton] at hp
          subst hp
          exact Int.ofNat_lt.mpr (by omega)
      rw [pushSlice_cons_ok i e rest acc hlv, aupdate_append _ _ _ hfresh,
        ih (i + 1) _ (fun x hx => h x (by simp [hx])) hacc']
      rw [sliceSpec, encOf_eq hlv]
      simp

/-- Keys of the contiguous run are the naturals strictly above i, up to
i plus the run length. -/
theorem sliceSpec_key_bounds (es : List HostValue) :
    ∀ i, ∀ p ∈ sliceSpec i es,
      ∃ j : Nat, p.1 = Int.ofNat j ∧ i + 1 ≤ j ∧ j ≤ i + es.length := by
  induction es with
  | nil => intro i p hp; simp [sliceSpec] at hp
  | cons e rest ih =>
      intro i p hp
      rw [sliceSpec] at hp
      rcases List.mem_cons.mp hp with hp | hp
      · subst hp
        refine ⟨i + 1, rfl, le_refl _, ?_⟩
        simp only [List.length_cons]
        omega
      · obtain ⟨j, hj, h1, h2⟩ := ih (i + 1) p hp
        refine ⟨j, hj, by omega, ?_⟩
        simp only [List.length_cons]
        omega

/-- Keys outside the run 1..n are absent from the encoded slice table. -/
theorem sliceSpec_lookup_out (es : List HostValue) (i : Nat) (k : Int)
    (hk : k < Int.ofNat (i + 1) ∨ Int.ofNat (i + es.length) < k) :
    alookup (sliceSpec i es) k = none := by
  apply alookup_not_mem
  intro hmem
  obtain ⟨p, hp, hpe⟩ := List.mem_map.mp hmem
  obtain ⟨j, hj, h1, h2⟩ := sliceSpec_key_bounds es i p hp
  rw [hpe] at hj
  subst hj
  rcases hk with hk | hk
  · have := Int.ofNat_lt.mp hk
    omega
  · have := Int.ofNat_lt.mp hk
    omega

/-- Key i+j+1 of the run holds the encoding of element j. -/
theorem sliceSpec_lookup_mem (es : List HostValue) :
    ∀ i j, j < es.length →
      alookup (sliceSpec i es) (Int.ofNat (i + j + 1)) = some (encOf (es.getD j .nilv)) := by
  induction es with
  | nil => intro i j hj; simp at hj
  | cons e rest ih =>
      intro i j hj
      cases j with
      | zero =>
          rw [sliceSpec, alookup]
          simp
      | succ j' =>
          rw [sliceSpec, alookup, if_neg]
          · have hrw : i + (j' + 1) + 1 = i + 1 + j' + 1 := by omega
            rw [hrw, ih (i + 1) j' (by simpa using hj)]
            simp
          · intro hcontra
            have := Int.ofNat.inj hcontra
            omega

/-- C2: for every host slice or array of length n whose elements all encode,
the encoded guest table's numeric keys are exactly the contiguous 1-based
run 1..n — key j+1 holds the encoding of element j, and every numeric key
outside 1..n (in particular 0 and n+1) is absent. -/
theorem pushSlice_spec (es : List HostValue)
    (h : ∀ e ∈ es, ∃ lv, pushValue e = .ok lv) :
    pushValue (.slice es) = .ok (.table (sliceSpec 0 es) [] []) ∧
    (∀ j, j < es.length →
      alookup (sliceSpec 0 es) (Int.ofNat (j + 1)) = some (encOf (es.getD j .nilv))) ∧
    (∀ k : Int, k < 1 ∨ Int.ofNat es.length < k → alookup (sliceSpec 0 es) k = none) := by
  refine ⟨?_, ?_, ?_⟩
  · have hpush := pushSlice_eq es 0 [] h (by intro p hp; simp at hp)
    simp [pushValue, pushBasicType, pushComplexType, hpush]
  · intro j hj
    simpa using sliceSpec_lookup_mem es 0 j hj
  · intro k hk
    apply sliceSpec_lookup_out es 0 k
    simpa using hk

/-- Witness for C2: the spec's concrete slice [3,5,7,9] encodes to the table
with keys 1..4 holding 3,5,7,9, and keys 0 and 5 absent. -/
theorem pushSlice_spec_witness :
    pushValue (.slice [.int 3, .int 5, .int 7, .int 9]) =
      .ok (.table (sliceSpec 0 [.int 3, .int 5, .int 7, .int 9]) [] []) ∧
    sliceSpec 0 [.int 3, .int 5, .int 7, .int 9] =
      [(1, .num 3), (2, .num 5), (3, .num 7), (4, .num 9)] ∧
    alookup (sliceSpec 0 [.int 3, .int 5, .int 7, .int 9]) 0 = none ∧
    alookup (sliceSpec 0 [.int 3, .int 5, .int 7, .int 9]) 5 = none := by
  have h := pushSlice_spec [.int 3, .int 5, .int 7, .int 9]
    (by
      intro e he
      simp only [List.mem_cons, List.not_mem_nil, or_false] at he
      rcases he with he | he | he | he <;>
        exact ⟨_, by rw [he]; rfl⟩)
  refine ⟨h.1, ?_, ?_, ?_⟩
  · simp [sliceSpec, encOf, pushValue, pushBasicType]
  · exact h.2.2 0 (by left; decide)
  · exact h.2.2 5 (by right; decide)

/-- One `pushStruct` step over an unexported field: skipped entirely. -/
theorem pushStruct_cons_skip (n : String) (v : HostValue)
    (rest : List (String × Bool × HostValue)) (acc : List (String × LuaVal)) :
    pushStruct ((n, false, v) :: rest) acc = pushStruct rest acc := by
  simp [pushStruct]

/-- One `pushStruct` step over an exported field that encodes. -/
theorem pushStruct_cons_ok (n : String) (v : HostValue)
    (rest : List (String × Bool × HostValue)) (acc : List (String × LuaVal)) {lv : LuaVal}
    (h : pushValue v = .ok lv) :
    pushStruct ((n, true, v) :: rest) acc = pushStruct rest (aupdate acc n lv) := by
  rcases hb : pushBasicType v with _ | blv
  · rw [pushValue, hb] at h
    have hc : pushComplexType v = .ok lv := h
    simp [pushStruct, hb, hc]
  · rw [pushValue, hb] at h
    have hc : blv = lv := by simpa using h
    subst hc
    simp [pushStruct, hb]

/-- One `pushStruct` step over an exported field that fails to encode:
the whole struct push aborts with that error. -/
theorem pushStruct_cons_err (n : String) (v : HostValue)
    (rest : List (String × Bool × HostValue)) (acc : List (String × LuaVal)) {e : String}
    (h : pushValue v = .error e) :
    pushStruct ((n, true, v) :: rest) acc = .error e := by
  rcases hb : pushBasicType v with _ | blv
  · rw [pushValue, hb] at h
    have hc : pushComplexType v = .error e := h
    simp [pushStruct, hb, hc]
  · rw [pushValue, hb] at h
    simp at h

/-- The field loop of `pushStruct` materializes exactly the exported
fields' bindings after the accumulator, provided every exported field
encodes, the field names are distinct and fresh for the accumulator. -/
theorem pushStruct_eq (fs : List (String × Bool × HostValue)) :
    ∀ acc : List (String × LuaVal),
      (∀ f ∈ fs, f.2.1 = true → ∃ lv, pushValue f.2.2 = .ok lv) →
      (∀ f ∈ fs, f.1 ∉ acc.map Prod.fst) →
      (fs.map fun f => f.1).Nodup →
      pushStruct fs acc = .ok (.table [] (acc ++ structSpec fs) []) := by
  induction fs with
  | nil => intro acc _ _ _; simp [pushStruct, structSpec]
  | cons f rest ih =>
      obtain ⟨n, ex, v⟩ := f
      intro acc h hfresh hnodup
      simp only [List.map_cons, List.nodup_cons] at hnodup
      cases ex with
      | false =>
          rw [pushStruct_cons_skip, structSpec]
          simp only [Bool.false_eq_true, if_false]
          exact ih acc (fun x hx hex => h x (by simp [hx]) hex)
            (fun x hx => hfresh x (by simp [hx])) hnodup.2
      | true =>
          obtain ⟨lv, hlv⟩ := h (n, true, v) (by simp) rfl
          rw [pushStruct_cons_ok n v rest acc hlv,
            aupdate_append _ _ _ (hfresh (n, true, v) (by simp))]
          have hfresh' : ∀ x ∈ rest, x.1 ∉ (acc ++ [(n, lv)]).map Prod.fst := by
            intro x hx
            simp only [List.map_append, List.mem_append]
            push_neg
            refine ⟨hfresh x (by simp [hx]), ?_⟩
            simp only [List.map_cons, List.map_nil, List.mem_singleton]
            intro hcontra
            exact hnodup.1 (hcontra ▸ List.mem_map.mpr ⟨x, hx, rfl⟩)
          rw [ih _ (fun x hx hex => h x (by simp [hx]) hex) hfresh' hnodup.2, structSpec]
          simp [encOf_eq hlv]

/-- The encoded struct table's key list is the exported-field name list. -/
theorem structSpec_keys (fs : List (String × Bool × HostValue)) :
    (structSpec fs).map Prod.fst = exportedNames fs := by
  induction fs with
  | nil => rfl
  | cons f rest ih =>
      obtain ⟨n, ex, v⟩ := f
      cases ex <;> simp [structSpec, exportedNames, List.filter_cons] at ih ⊢ <;>
        simpa [exportedNames] using ih

/-- A name that is not a field name is absent from the encoded struct. -/
theorem structSpec_not_mem (fs : List (String × Bool × HostValue)) (name : String)
    (h : name ∉ fs.map fun f => f.1) : alookup (structSpec fs) name = none := by
  apply alookup_not_mem
  rw [structSpec_keys]
  intro hmem
  apply h
  rw [exportedNames] at hmem
  obtain ⟨f, hf, hfe⟩ := List.mem_map.mp hmem
  exact List.mem_map.mpr ⟨f, List.mem_of_mem_filter hf, hfe⟩

/-- With distinct field names, an unexported field's name never appears as
a key of the encoded struct. -/
theorem structSpec_unexported (fs : List (String × Bool × HostValue))
    (hnodup : (fs.map fun f => f.1).Nodup) :
    ∀ f ∈ fs, f.2.1 = false → alookup (structSpec fs) f.1 = none := by
  induction fs with
  | nil => intro f hf; simp at hf
  | cons g rest ih =>
      obtain ⟨n, ex, v⟩ := g
      simp only [List.map_cons, List.nodup_cons] at hnodup
      intro f hf hfex
      rcases List.mem_cons.mp hf with heq | hmem
      · subst heq
        simp only at hfex
        subst hfex
        rw [structSpec]
        simp only [Bool.false_eq_true, if_false]
        exact structSpec_not_mem rest n hnodup.1
      · have hne : n ≠ f.1 := by
          intro hcontra
          exact hnodup.1 (hcontra ▸ List.mem_map.mpr ⟨f, hmem, rfl⟩)
        clear hf
        cases ex with
        | false =>
            rw [structSpec]
            simp only [Bool.false_eq_true, if_false]
            exact ih hnodup.2 f hmem hfex
        | true =>
            rw [structSpec]
            simp only [if_true]
            rw [alookup, if_neg hne]
            exact ih hnodup.2 f hmem hfex

/-- The first failing exported field's error aborts the whole struct push. -/
theorem pushStruct_err (fs : List (String × Bool × HostValue)) :
    ∀ (acc : List (String × LuaVal)) (e : String), structFirstErr fs = some e →
      pushStruct fs acc = .error e := by
  induction fs with
  | nil => intro acc e h; simp [structFirstErr] at h
  | cons f rest ih =>
      obtain ⟨n, ex, v⟩ := f
      intro acc e h
      cases ex with
      | false =>
          rw [structFirstErr] at h
          simp only [Bool.false_eq_true, if_false] at h
          rw [pushStruct_cons_skip]
          exact ih acc e h
      | true =>
          rw [structFirstErr] at h
          simp only [if_true] at h
          rcases hv : pushValue v with e' | lv
          · rw [hv] at h
            simp only [Option.some.injEq] at h
            subst h
            exact pushStruct_cons_err n v rest acc hv
          · rw [hv] at h
            rw [pushStruct_cons_ok n v rest acc hv]
            exact ih _ e h

/-- C7: a host struct with distinct field names whose exported fields all
encode yields a guest table whose string keys are exactly the exported
field names (in declaration order, each bound to the field's encoding);
unexported field names never appear as keys; and if some exported field
fails to encode, the whole struct encode aborts with the first such
field's error. -/
theorem pushStruct_spec (fs : List (String × Bool × HostValue)) :
    ((∀ f ∈ fs, f.2.1 = true → ∃ lv, pushValue f.2.2 = .ok lv) →
      (fs.map fun f => f.1).Nodup →
      pushValue (.strukt fs) = .ok (.table [] (structSpec fs) []) ∧
      (structSpec fs).map Prod.fst = exportedNames fs ∧
      (∀ f ∈ fs, f.2.1 = false → alookup (structSpec fs) f.1 = none)) ∧
    (∀ e, structFirstErr fs = some e → pushValue (.strukt fs) = .error e) := by
  constructor
  · intro hok hnodup
    refine ⟨?_, structSpec_keys fs, structSpec_unexported fs hnodup⟩
    have hps := pushStruct_eq fs [] hok (by intro f hf; simp) hnodup
    simp [pushValue, pushBasicType, pushComplexType, hps]
  · intro e he
    have hps := pushStruct_err fs [] e he
    simp [pushValue, pushBasicType, pushComplexType, hps]

/-- Witness for C7: the struct {A:3, b:"secret" (unexported), B:2} encodes
to a table with exactly keys A and B; the unexported b is absent; and a
struct whose exported field holds a channel aborts with the invalid-type
error. -/
theorem pushStruct_spec_witness :
    pushValue (.strukt [("A", true, .int 3), ("b", false, .str "secret"), ("B", true, .int 2)]) =
      .ok (.table []
        (structSpec [("A", true, .int 3), ("b", false, .str "secret"), ("B", true, .int 2)]) []) ∧
    structSpec [("A", true, .int 3), ("b", false, .str "secret"), ("B", true, .int 2)] =
      [("A", .num 3), ("B", .num 2)] ∧
    alookup (structSpec [("A", true, .int 3), ("b", false, .str "secret"), ("B", true, .int 2)])
      "b" = none ∧
    pushValue (.strukt [("A", true, .chan)]) = .error "Invalid type: chan" := by
  have h := (pushStruct_spec
      [("A", true, .int 3), ("b", false, .str "secret"), ("B", true, .int 2)]).1
    (by
      intro f hf hex
      simp only [List.mem_cons, List.not_mem_nil, or_false] at hf
      rcases hf with hf | hf | hf <;> subst hf <;> first
        | exact ⟨.num 3, rfl⟩
        | exact ⟨.num 2, rfl⟩
        | simp at hex)
    (by decide)
  have herr := (pushStruct_spec [("A", true, .chan)]).2 "Invalid type: chan"
    (by simp [structFirstErr, pushValue, pushBasicType, pushComplexType])
  refine ⟨h.1, ?_, ?_, herr⟩
  · simp [structSpec, encOf, pushValue, pushBasicType]
  · exact h.2.2 ("b", false, .str "secret") (by simp) rfl

/-- C9 counterexample: a double pointer to 3 encodes successfully to the
number 3 — the encoder dereferences through both levels instead of failing
fast with an unsupported-type error, refuting the claim that double
pointers are rejected within a bounded depth. -/
theorem pushValue_double_ptr : pushValue (.ptrTo (.ptrTo (.int 3))) = .ok (.num 3) := by
  simp [pushValue, pushBasicType, pushComplexType]

/-- C9 (amended): a nil host pointer does not encode to the guest Nil — the
reflect dereference panics on the zero Value; a non-nil pointer is
dereferenced and its pointee re-dispatched through the same encoder, so
k-level pointers are dereferenced through all k levels and encode their
ultimate pointee; no depth or visited guard exists. -/
theorem pushValue_ptr_spec :
    pushValue .ptrNil = .error "reflect: call of reflect.Value.Interface on zero Value" ∧
    ∀ v : HostValue, pushValue (.ptrTo v) = pushValue v := by
  constructor
  · simp [pushValue, pushBasicType, pushComplexType]
  · intro v
    rcases hb : pushBasicType v with _ | blv <;>
      simp [pushValue, pushBasicType, pushComplexType, hb]

/-- The height `lua_settop` leaves is the requested one. -/
theorem setTop_length (n : Nat) (st : LunaState) : (setTop n st).stack.length = n := by
  rw [setTop]
  by_cases h : st.stack.length ≤ n
  · simp only [if_pos h, List.length_append, List.length_replicate]
    omega
  · simp only [if_neg h, List.length_drop]
    omega

/-- Popping down to the saved height from one extra slot restores the
saved stack exactly. -/
theorem setTop_cons (v : LuaVal) (s : List LuaVal) (g : List (String × LuaVal)) :
    setTop s.length ⟨v :: s, g⟩ = ⟨s, g⟩ := by
  rw [setTop]
  simp

/-- The member loop leaves the library table on top of the untouched entry
stack and never touches the globals, whether or not it fails. -/
theorem pushMembers_shape (ms : List (String × HostValue)) :
    ∀ (a : List (Int × LuaVal)) (b : List (String × LuaVal)) (c : List (Bool × LuaVal))
      (rest : List LuaVal) (g : List (String × LuaVal)),
      ∃ a' b' c',
        (pushMembers ms ⟨.table a b c :: rest, g⟩).1 = ⟨.table a' b' c' :: rest, g⟩ := by
  induction ms with
  | nil => intro a b c rest g; exact ⟨a, b, c, rfl⟩
  | cons m rest' ih =>
      obtain ⟨key, val⟩ := m
      intro a b c rest g
      rcases hv : pushValue val with e | lv
      · simp only [pushMembers, hv]
        exact ⟨a, b, c, rfl⟩
      · have hstep :
            setFieldNeg2 key (push ⟨.table a b c :: rest, g⟩ lv) =
              ⟨.table a (aupdate b key lv) c :: rest, g⟩ := by
          rw [push, setFieldNeg2]
        simp only [pushMembers, hv, hstep]
        exact ih a (aupdate b key lv) c rest g

/-- A failing member makes the member loop fail. -/
theorem pushMembers_err (ms : List (String × HostValue)) :
    ∀ st : LunaState, (∃ kv ∈ ms, ∃ e, pushValue kv.2 = .error e) →
      (pushMembers ms st).2.isSome := by
  induction ms with
  | nil =>
      intro st h
      obtain ⟨kv, hkv, _⟩ := h
      simp at hkv
  | cons m rest ih =>
      obtain ⟨key, val⟩ := m
      intro st h
      rw [pushMembers]
      rcases hv : pushValue val with e | lv
      · rfl
      · apply ih
        obtain ⟨kv, hkv, e, he⟩ := h
        rcases List.mem_cons.mp hkv with heq | hmem
        · subst heq
          rw [hv] at he
          simp at he
        · exact ⟨kv, hmem, e, he⟩

/-- C1: if any member of a library definition fails to encode,
`CreateLibrary` publishes nothing — the whole interpreter state (globals
and stack, in particular the named global) is exactly as before the call —
and the operation returns the error. -/
theorem createLibrary_atomic (st : LunaState) (name : String)
    (ms : List (String × HostValue))
    (h : ∃ kv ∈ ms, ∃ e, pushValue kv.2 = .error e) :
    (createLibrary st name ms).1 = st ∧ ((createLibrary st name ms).2).isSome := by
  obtain ⟨a', b', c', hsh⟩ := pushMembers_shape ms [] [] [] st.stack st.globals
  have herr := pushMembers_err ms ⟨.table [] [] [] :: st.stack, st.globals⟩ h
  have hnt : newTable st = ⟨.table [] [] [] :: st.stack, st.globals⟩ := by
    rw [newTable, push]
  rcases hpm : pushMembers ms ⟨.table [] [] [] :: st.stack, st.globals⟩ with ⟨st2, r⟩
  rw [hpm] at hsh herr
  cases r with
  | none => simp at herr
  | some e =>
      have hst2 : st2 = ⟨.table a' b' c' :: st.stack, st.globals⟩ := hsh
      have hres : createLibrary st name ms = (setTop (getTop st) st2, some e) := by
        simp only [createLibrary, hnt, hpm]
      rw [hres]
      subst hst2
      refine ⟨?_, rfl⟩
      show setTop (getTop st) ⟨.table a' b' c' :: st.stack, st.globals⟩ = st
      rw [getTop, setTop_cons]

/-- Witness for C1: a library with a channel-typed member leaves the
instance state untouched and reports the error. -/
theorem createLibrary_atomic_witness :
    (createLibrary ⟨[], [("g", .num 7)]⟩ "lib" [("a", .int 1), ("bad", .chan)]).1 =
      ⟨[], [("g", .num 7)]⟩ ∧
    ((createLibrary ⟨[], [("g", .num 7)]⟩ "lib" [("a", .int 1), ("bad", .chan)]).2).isSome :=
  createLibrary_atomic _ _ _
    ⟨("bad", .chan), by simp, "Invalid type: chan",
      by simp [pushValue, pushBasicType, pushComplexType]⟩

/-- C10: every public stack-touching operation — `Call` (under any
interpreter behaviour), `CreateLibrary` (success or failure) and
`FunctionExists` — returns with the interpreter stack at its entry
height, so the height is invariant across any sequence of them. -/
theorem stack_height_invariant :
    (∀ (luaCall : LunaState → Nat → LunaState × Option String) (st : LunaState)
        (name : String) (args : List HostValue),
      ((call luaCall st name args).1).stack.length = st.stack.length) ∧
    (∀ (st : LunaState) (name : String) (ms : List (String × HostValue)),
      ((createLibrary st name ms).1).stack.length = st.stack.length) ∧
    (∀ (st : LunaState) (name : String),
      ((functionExists st name).1).stack.length = st.stack.length) := by
  refine ⟨?_, ?_, ?_⟩
  · intro luaCall st name args
    rcases hpa : pushArgs args (getGlobal st name) with ⟨st2, r⟩
    cases r with
    | some e => simp [call, hpa, setTop_length, getTop]
    | none =>
        rcases hlc : luaCall st2 args.length with ⟨st3, r3⟩
        cases r3 with
        | some e => simp [call, hpa, hlc, setTop_length, getTop]
        | none => simp [call, hpa, hlc, setTop_length, getTop]
  · intro st name ms
    obtain ⟨a', b', c', hsh⟩ := pushMembers_shape ms [] [] [] st.stack st.globals
    have hnt : newTable st = ⟨.table [] [] [] :: st.stack, st.globals⟩ := by
      rw [newTable, push]
    rcases hpm : pushMembers ms ⟨.table [] [] [] :: st.stack, st.globals⟩ with ⟨st2, r⟩
    rw [hpm] at hsh
    cases r with
    | some e => simp [createLibrary, hnt, hpm, setTop_length, getTop]
    | none =>
        have hst2 : st2 = ⟨.table a' b' c' :: st.stack, st.globals⟩ := hsh
        simp only [createLibrary, hnt, hpm]
        subst hst2
        rw [setGlobal]
  · intro st name
    simp [functionExists, setTop_length, getTop]

/-- C5 (code defect): `LuaNil.Unmarshal` switches on the kind of the pointer
argument itself, which is always Ptr once the pointer check passed, so it
succeeds for every destination kind and resets the destination to its zero
value: for a plain int destination holding 7 it returns success and writes
0, instead of failing with the unsupported-nil-target error and leaving
the destination unchanged as claimed. -/
theorem luaNil_unmarshal_always_zeroes :
    (∀ (t : HostType) (cur : HostValue), luaNilUnmarshal t cur = .ok (zeroOf t)) ∧
    luaNilUnmarshal .intT (.int 7) = .ok (.int 0) := by
  have hall : ∀ (t : HostType) (cur : HostValue), luaNilUnmarshal t cur = .ok (zeroOf t) := by
    intro t cur
    rfl
  refine ⟨hall, ?_⟩
  rw [hall .intT (.int 7)]
  simp [zeroOf]

/-- C4 (code defect): a conversion failure on a table element or struct
field does not make `LuaTable.Unmarshal` return that error — the loop
collects the error into the named return, but the function ends in
`return nil` (and the struct case tests the stale `err` instead of `er`),
so the decode reports success: the table with the non-numeric entry "hi"
decodes into an int-slice destination as success with a zeroed element,
although the element conversion itself failed; likewise a failed struct
field leaves the field untouched under a success result. -/
theorem tableUnmarshal_swallows_errors :
    tableUnmarshal [(1, .str "hi")] [] [] (.sliceT .intT) (.slice []) = .ok (.slice [.int 0]) ∧
    convertBasic (.str "hi") .intT = .error "Cannot assign" ∧
    tableUnmarshal [] [("a", .str "x")] [] (.structT [("A", .intT)])
      (.strukt [("A", true, .int 5)]) = .ok (.strukt [("A", true, .int 5)]) := by
  have ht : titleCase "a" = "A" := rfl
  refine ⟨?_, rfl, ?_⟩
  · simp [tableUnmarshal, luaTableUnmarshal, luaTableUnmarshalF, luaSlice, sliceLoop,
      alookup, lsizeIx, lsizeMp, lsizeBl, lsize, unmarshalItems, convertTableVal,
      convertBasic, zeroOf]
  · simp [tableUnmarshal, luaTableUnmarshal, luaTableUnmarshalF, lsizeIx, lsizeMp,
      lsizeBl, lsize, structCur, structResult, slookup3, unmarshalFields, updateField, ht,
      convertTableVal, convertBasic]

/-- C6 counterexample: decoding a table into an int destination holding 7
silently succeeds with the destination unchanged, instead of failing with
an unsupported-table-target error as claimed. -/
theorem tableUnmarshal_int_silent :
    tableUnmarshal [] [("a", .num 1)] [] .intT (.int 7) = .ok (.int 7) := by
  simp [tableUnmarshal, luaTableUnmarshal, luaTableUnmarshalF]

/-- Destination kinds the table-decode switch actually handles. -/
def isTableTarget (t : HostType) : Bool :=
  match kindOf t with
  | .sliceK | .arrayK | .structK | .mapK => true
  | _ => false

/-- C6 (amended): `LuaTable.Unmarshal` into any destination whose kind is
not slice, array, struct or map silently succeeds and leaves the
destination unchanged — the kind switch has no default case, and the
function falls through to `return nil`. -/
theorem tableUnmarshal_other_kinds_noop (ix : List (Int × LuaVal))
    (mp : List (String × LuaVal)) (bl : List (Bool × LuaVal)) (t : HostType)
    (cur : HostValue) (h : isTableTarget t = false) :
    tableUnmarshal ix mp bl t cur = .ok cur := by
  cases t <;> simp [isTableTarget, kindOf] at h <;>
    simp [tableUnmarshal, luaTableUnmarshal, luaTableUnmarshalF]

/-- Witness for C6 (amended) at a string destination. -/
theorem tableUnmarshal_other_kinds_noop_witness :
    isTableTarget .strT = false ∧
    tableUnmarshal [] [] [] .strT (.str "s") = .ok (.str "s") :=
  ⟨rfl, tableUnmarshal_other_kinds_noop [] [] [] .strT (.str "s") rfl⟩

/-- A successful fixed-parameter binding has exactly one decoded value per
declared parameter. -/
theorem bindParams_length : ∀ (ts : List HostType) (largs : List LuaVal)
    (vals : List HostValue), bindParams ts largs = .ok vals → vals.length = ts.length := by
  intro ts
  induction ts with
  | nil =>
      intro largs vals h
      rw [bindParams] at h
      simp at h
      subst h
      rfl
  | cons t ts ih =>
      intro largs vals h
      cases largs with
      | nil => rw [bindParams] at h; simp at h
      | cons a rest =>
          rw [bindParams] at h
          rcases hv : setValue t a with e | hv0
          · rw [hv] at h; simp at h
          · rw [hv] at h
            rcases hb : bindParams ts rest with e | hvs
            · rw [hb] at h; simp at h
            · rw [hb] at h
              simp only [Except.ok.injEq] at h
              subst h
              simp [ih rest hvs hb]

/-- The fixed-parameter binding only reads the first `ts.length` presented
arguments: everything beyond the declared parameters is ignored. -/
theorem bindParams_take : ∀ (ts : List HostType) (largs : List LuaVal),
    bindParams ts (largs.take ts.length) = bindParams ts largs := by
  intro ts
  induction ts with
  | nil => intro largs; rfl
  | cons t ts ih =>
      intro largs
      cases largs with
      | nil => rfl
      | cons a rest =>
          simp only [List.length_cons, List.take_succ_cons]
          cases hv : setValue t a <;> simp [bindParams, hv, ih rest]

/-- C3: for a non-variadic bridged function of declared parameter count p,
an invocation with fewer than p presented arguments fails with the arity
error (the source's panic string, surfaced through the interpreter's
error-signaling mechanism rather than a silent no-op or process abort);
with at least p arguments the extra ones are ignored and the function is
invoked on exactly the p decoded values of the first p arguments. -/
theorem wrapperGen_arity (params : List HostType) (largs : List LuaVal) :
    (largs.length < params.length →
      wrapperGen ⟨params, false⟩ largs =
        .error (s!"Args: {largs.length}, Params: {params.length}")) ∧
    (params.length ≤ largs.length →
      wrapperGen ⟨params, false⟩ largs = bindParams params (largs.take params.length) ∧
      ∀ vals, bindParams params (largs.take params.length) = .ok vals →
        vals.length = params.length) := by
  constructor
  · intro h
    simp [wrapperGen, h]
  · intro h
    refine ⟨?_, fun vals hv => bindParams_length params _ vals hv⟩
    rw [bindParams_take]
    simp [wrapperGen, Nat.not_lt.mpr h]

/-- Witness for C3: a bridged function with one int parameter called with
zero arguments fails with the arity error; called with an extra argument
beyond its parameter it is invoked on exactly the one decoded value. -/
theorem wrapperGen_arity_witness :
    wrapperGen ⟨[.intT], false⟩ [] = .error "Args: 0, Params: 1" ∧
    wrapperGen ⟨[.intT], false⟩ [.num 3, .str "extra"] = .ok [.int 3] := by
  have h1 := (wrapperGen_arity [.intT] []).1 (by decide)
  have h2 := ((wrapperGen_arity [.intT] [.num 3, .str "extra"]).2 (by decide)).1
  constructor
  · rw [h1]
    rfl
  · rw [h2]
    simp [bindParams, setValue, Luna.set, lsize, kindOf]

/-- C8: while an instance is TimedOut, every new request fails immediately
with the same Timeout error and changes nothing (no acquisition, no
queueing); a call whose deadline is shorter than its duration returns
Timeout and moves the instance to TimedOut; once the abandoned operation
completes (drains), the instance is Idle again with the abandoned call's
effect applied to the globals, and a subsequent call within its deadline
succeeds, observing that mutated global state. -/
theorem serializer_timeout_spec {γ α : Type} (m : SerInstance γ α) (op1 op2 op3 : SerOp γ α)
    (d1 d3 : Nat) (dl2 : Option Nat)
    (hm : m.timedOut = false) (h1 : d1 < op1.duration) (h3 : op3.duration ≤ d3) :
    serSubmit m op1 (some d1) =
      ({ m with timedOut := true, pending := some op1.effect }, .timeout) ∧
    (∀ m' : SerInstance γ α, m'.timedOut = true → serSubmit m' op2 dl2 = (m', .timeout)) ∧
    serDrain (serSubmit m op1 (some d1)).1 =
      { timedOut := false, pending := none, globals := op1.effect m.globals } ∧
    serSubmit (serDrain (serSubmit m op1 (some d1)).1) op3 (some d3) =
      ({ timedOut := false, pending := none, globals := op3.effect (op1.effect m.globals) },
        .ok op3.result) := by
  have hsub : serSubmit m op1 (some d1) =
      ({ m with timedOut := true, pending := some op1.effect }, .timeout) := by
    simp [serSubmit, hm, h1]
  refine ⟨hsub, ?_, ?_, ?_⟩
  · intro m' hm'
    simp [serSubmit, hm']
  · rw [hsub]
    simp [serDrain]
  · rw [hsub]
    simp [serDrain, serSubmit, Nat.not_lt.mpr h3]

/-- Witness for C8 over integer global state: the timed-out call's
increment is visible to the call admitted after the drain. -/
theorem serializer_timeout_spec_witness :
    (serSubmit (⟨false, none, (0 : Int)⟩ : SerInstance Int Int)
      ⟨5, fun g => g + 1, 11⟩ (some 3)).2 = .timeout ∧
    (serSubmit (serSubmit (⟨false, none, (0 : Int)⟩ : SerInstance Int Int)
        ⟨5, fun g => g + 1, 11⟩ (some 3)).1 ⟨2, fun g => g * 10, 22⟩ none).2 = .timeout ∧
    serSubmit (serDrain (serSubmit (⟨false, none, (0 : Int)⟩ : SerInstance Int Int)
        ⟨5, fun g => g + 1, 11⟩ (some 3)).1) ⟨1, fun g => g + 100, 33⟩ (some 9) =
      (⟨false, none, (101 : Int)⟩, .ok 33) := by
  have h := serializer_timeout_spec (⟨false, none, (0 : Int)⟩ : SerInstance Int Int)
    ⟨5, fun g => g + 1, 11⟩ ⟨2, fun g => g * 10, 22⟩ ⟨1, fun g => g + 100, 33⟩
    3 9 none rfl (by decide) (by decide)
  refine ⟨?_, ?_, ?_⟩
  · rw [h.1]
  · have hsecond := h.2.1 (serSubmit (⟨false, none, (0 : Int)⟩ : SerInstance Int Int)
      ⟨5, fun g => g + 1, 11⟩ (some 3)).1 (by rw [h.1])
    rw [hsecond]
  · have hfinal := h.2.2.2
    rw [hfinal]
    norm_num
